import Mathlib

/-!
# Verification of the django-toosimple-q scheduling and execution core

Shallow embedding of the task-queue core of `django_toosimple_q`:

* `TaskExec` rows and their states (`models.py`, class `TaskExec`),
* `Task.enqueue` (`task.py`, `Task.enqueue`),
* the replacement machinery (`models.py`, `TaskExec.create_replacement`;
  `task.py`, `Task.create_replacement` is identical on every field the
  theorems mention),
* the failure path of task execution (`models.py`, `TaskExec.execute` /
  `task.py`, `Task.execute`),
* the worker tick steps (`management/commands/worker.py`, `Command.do_loop`):
  orphan sweep, sleeping-task wake-up, due-task selection and locking,
* the schedule due-boundary computation (`schedule.py`, `Schedule.execute`;
  `models.py`, `ScheduleExec.next_dues`).

Timestamps are integers (seconds); the argument payloads are modelled as
lists of integers, which is enough to express payload equality (the only
operation the core performs on them).
-/

namespace ToosimpleQ

/-- The states of a task execution row (`models.py`, `TaskExec.States`). -/
inductive TState where
  | sleeping
  | queued
  | processing
  | succeeded
  | interrupted
  | failed
  | invalid
deriving DecidableEq, Repr

/-- One row of the TaskExec table (`models.py`, class `TaskExec`).
Fields not used by any operation modelled here (stdout, stderr, error,
started, finished, worker) are omitted. -/
structure TaskExec where
  id : Nat
  task_name : String
  args : List Int
  kwargs : List (String × Int)
  retries : Int
  retry_delay : Int
  due : Int
  created : Int
  state : TState
  result : Option Int := none
  replaced_by : Option Nat := none
deriving DecidableEq, Repr

/-- A task definition (`task.py`, class `Task`). The callable itself is kept
abstract; its behaviour enters through `CallOutcome` below. -/
structure Task where
  name : String
  queue : String := "default"
  priority : Int := 0
  unique : Bool := false
  retries : Int := 0
  retry_delay : Int := 0
deriving DecidableEq, Repr

/-- The database table of task executions, in primary-key creation order. -/
abbrev TaskDb := List TaskExec

/-- Ids present in the table. -/
def idsOf (db : TaskDb) : List Nat := db.map (fun r => r.id)

/-- State of the row with primary key `j`, if present. -/
def stateOf (db : TaskDb) (j : Nat) : Option TState :=
  (db.find? (fun r => r.id == j)).map (fun r => r.state)

/-- `UPDATE ... WHERE id = i` : apply `g` to the row(s) with primary key `i`. -/
def dbUpdate (db : TaskDb) (i : Nat) (g : TaskExec → TaskExec) : TaskDb :=
  db.map (fun r => if r.id == i then g r else r)

/-- The filter `task_name=self.name, args=args_, kwargs=kwargs_` used by the
uniqueness check of `Task.enqueue` (task.py, lines 48-50). -/
def samePayload (t : Task) (args : List Int) (kwargs : List (String × Int))
    (r : TaskExec) : Bool :=
  r.task_name == t.name && r.args == args && r.kwargs == kwargs

/-- The row built by the `TaskExec.objects.create(...)` call of
`Task.enqueue` (task.py, lines 71-79). -/
def enqueueRow (t : Task) (args : List Int) (kwargs : List (String × Int))
    (due : Option Int) (now : Int) (freshId : Nat) : TaskExec :=
  { id := freshId, task_name := t.name, args := args, kwargs := kwargs
    state := if due.isSome then TState.sleeping else TState.queued
    due := due.getD now, created := now
    retries := t.retries, retry_delay := t.retry_delay }

/-- `Task.enqueue` (task.py, lines 37-79). Returns the new table and the
created row (`none` models the Python return value `False`). `due = none`
models calling without a `due` argument; `now` is `timezone.now()`;
`freshId` is the primary key the insert would allocate. -/
def Task.enqueue (t : Task) (db : TaskDb) (args : List Int)
    (kwargs : List (String × Int)) (due : Option Int) (now : Int)
    (freshId : Nat) : TaskDb × Option TaskExec :=
  let due_datetime := due.getD now
  let created : TaskExec := enqueueRow t args kwargs due now freshId
  if t.unique then
    let existing_tasks := db.filter (samePayload t args kwargs)
    match existing_tasks.find? (fun r => r.state == TState.queued) with
    | some _ => (db, none)
    | none =>
      match existing_tasks.find? (fun r => r.state == TState.sleeping) with
      | some sleeping_task =>
        match due with
        | none =>
          (dbUpdate db sleeping_task.id
            (fun r => { r with due := due_datetime, state := TState.queued }),
           none)
        | some _ =>
          if sleeping_task.due > due_datetime then
            (dbUpdate db sleeping_task.id
              (fun r => { r with due := min sleeping_task.due due_datetime }),
             none)
          else (db, none)
      | none => (db ++ [created], some created)
  else (db ++ [created], some created)

/-- `TaskExec.create_replacement` (models.py, lines 136-158). Returns the
updated original row (with `replaced_by` set) and the fresh replacement row.
`task.py`'s `Task.create_replacement` (lines 134-154) is identical except
that it copies the `created` timestamp; no theorem below depends on the
`created` field of a replacement. -/
def TaskExec.create_replacement (row : TaskExec) (is_retry : Bool) (now : Int)
    (freshId : Nat) : TaskExec × TaskExec :=
  let retries := if is_retry then (if row.retries > 0 then row.retries - 1 else -1)
                 else row.retries
  let delay := if is_retry then row.retry_delay * 2 else row.retry_delay
  let replaced_by : TaskExec :=
    { id := freshId, task_name := row.task_name, args := row.args
      kwargs := row.kwargs, retries := retries, retry_delay := delay
      state := TState.sleeping, due := now + row.retry_delay, created := now }
  ({ row with replaced_by := some freshId }, replaced_by)

/-- What the task's callable did when invoked. -/
inductive CallOutcome where
  | ok (result : Int)
  | raises
deriving DecidableEq, Repr

/-- `TaskExec.execute` (models.py, lines 114-134): successful call sets
SUCCEEDED and stores the result; a raising call sets FAILED and, when
`retries != 0`, spawns a retry replacement. Returns the updated row and the
replacement, if one was created. -/
def TaskExec.execute (row : TaskExec) (outcome : CallOutcome) (now : Int)
    (freshId : Nat) : TaskExec × Option TaskExec :=
  match outcome with
  | CallOutcome.ok v =>
    ({ row with state := TState.succeeded, result := some v }, none)
  | CallOutcome.raises =>
    let failed := { row with state := TState.failed }
    if failed.retries ≠ 0 then
      let p := TaskExec.create_replacement failed true now freshId
      (p.1, some p.2)
    else (failed, none)

/-- The interruption path (worker.py, lines 153-161, and the
`KeyboardInterrupt` handler of task.py, lines 125-130): the processing row
is marked INTERRUPTED and a non-retry replacement is always created. -/
def interruptExec (row : TaskExec) (now : Int) (freshId : Nat) :
    TaskExec × TaskExec :=
  TaskExec.create_replacement { row with state := TState.interrupted } false
    now freshId

/-- Iterated failures: execute the row with an always-raising callable at the
successive times in `nows`, following the `replaced_by` chain; returns the
list of replacement rows, in creation order. -/
def failChain (row : TaskExec) (nows : List Int) (freshId : Nat) :
    List TaskExec :=
  match nows with
  | [] => []
  | now :: rest =>
    match TaskExec.execute row CallOutcome.raises now freshId with
    | (_, some repl) => repl :: failChain repl rest (freshId + 1)
    | (_, none) => []

/-- The table-level effect of a failing execution of the row with primary
key `i`: the row is saved in its FAILED form, and the replacement, if any,
is inserted as a new row. -/
def failInDb (db : TaskDb) (i : Nat) (now : Int) (freshId : Nat) : TaskDb :=
  match db.find? (fun r => r.id == i) with
  | none => db
  | some r =>
    match TaskExec.execute r CallOutcome.raises now freshId with
    | (r', some repl) => dbUpdate db i (fun _ => r') ++ [repl]
    | (r', none) => dbUpdate db i (fun _ => r')

/-- The table-level effect of a successful execution of the row with
primary key `i`. -/
def succeedInDb (db : TaskDb) (i : Nat) (v : Int) : TaskDb :=
  dbUpdate db i (fun r => { r with state := TState.succeeded, result := some v })

/-- The table-level effect of interrupting the worker while the row with
primary key `i` is PROCESSING (worker.py, lines 156-161): the row is saved
as INTERRUPTED and its replacement is inserted. -/
def interruptInDb (db : TaskDb) (i : Nat) (now : Int) (freshId : Nat) :
    TaskDb :=
  match db.find? (fun r => r.id == i) with
  | none => db
  | some r =>
    let p := interruptExec r now freshId
    dbUpdate db i (fun _ => p.1) ++ [p.2]

/-- Worker tick step 3 (worker.py, lines 203-210): every row whose state is
not already INVALID and whose task name is not registered is marked INVALID. -/
def sweepTasks (registryNames : List String) (db : TaskDb) : TaskDb :=
  db.map (fun r =>
    if r.state ≠ TState.invalid ∧ r.task_name ∉ registryNames then
      { r with state := TState.invalid }
    else r)

/-- Worker tick step 6 (worker.py, lines 233-236): SLEEPING rows whose due
date has been reached are promoted to QUEUED. -/
def wakeTasks (now : Int) (db : TaskDb) : TaskDb :=
  db.map (fun r =>
    if r.state = TState.sleeping ∧ r.due ≤ now then
      { r with state := TState.queued }
    else r)

/-- The `Case(When(task_name=t.name, then=Value(-t.priority)), default=0)`
annotation of `Command._build_due_tasks_qs` (worker.py, lines 318-322). -/
def priorityKey (relevant : List Task) (name : String) : Int :=
  match relevant.find? (fun t => t.name == name) with
  | some t => -t.priority
  | none => 0

/-- The full `order_by` sort key of `_build_due_tasks_qs`:
negated priority, then due, then created, all ascending. -/
def orderKey (relevant : List Task) (r : TaskExec) : Int × Int × Int :=
  (priorityKey relevant r.task_name, r.due, r.created)

/-- Strict lexicographic comparison of sort keys. -/
def keyLt (a b : Int × Int × Int) : Bool :=
  a.1 < b.1 || (a.1 == b.1 &&
    (a.2.1 < b.2.1 || (a.2.1 == b.2.1 && a.2.2 < b.2.2)))

/-- The queryset filter of `_build_due_tasks_qs` (worker.py, lines 326-327):
QUEUED rows whose task is registered for this worker's queues. -/
def dueTasks (relevant : List Task) (db : TaskDb) : List TaskExec :=
  db.filter (fun r =>
    r.state = TState.queued && relevant.any (fun t => t.name == r.task_name))

/-- `.first()` of the ordered queryset: the filtered row that is minimal for
the sort key (worker.py, line 240 combined with lines 325-330). -/
def selectNext (relevant : List Task) (db : TaskDb) : Option TaskExec :=
  (dueTasks relevant db).foldl
    (fun acc r =>
      match acc with
      | none => some r
      | some a =>
        if keyLt (orderKey relevant r) (orderKey relevant a) then some r
        else acc)
    none

/-- Repeated worker ticks against callables that always succeed: select the
next due task, mark it done, record its id; models running the worker with
`--until_done` for `n` ticks. Returns the ids in execution order. -/
def runWorker (relevant : List Task) : Nat → TaskDb → List Nat
  | 0, _ => []
  | n + 1, db =>
    match selectNext relevant db with
    | some r =>
      r.id ::
        runWorker relevant n
          (dbUpdate db r.id (fun x => { x with state := TState.succeeded }))
    | none => []

/-! ## The multi-worker transition system

Coordination across workers happens exclusively through the shared store,
and every mutation that affects selection happens inside one database
transaction; the interleaving of any number of workers is therefore a
sequence of atomic table-to-table steps. -/

/-- Position of a state along the forward-only row lifecycle:
SLEEPING (0) → QUEUED (1) → PROCESSING (2) → terminal (3). -/
def rank : TState → Nat
  | TState.sleeping => 0
  | TState.queued => 1
  | TState.processing => 2
  | _ => 3

/-- One atomic transaction of the core against the shared TaskExec table,
performed by any of the concurrently running worker processes or enqueuing
callers. `lock` is worker step 7 (worker.py, lines 238-246): inside
`transaction.atomic()` the skip-locked queryset yields a QUEUED row, which
is committed as PROCESSING before the callable runs; since rows are locked
with skip-locked semantics, concurrent workers only ever interleave whole
transactions, and the locked row may be any QUEUED row (which
over-approximates which row the ordered queryset would yield). `wake` is
step 6, `sweep` is step 3, `finishOk`/`finishFail` are the two outcomes of
`TaskExec.execute`, and `interruptTask` is the signal handler of
`Command.inner_run`. -/
inductive Step : TaskDb → TaskDb → Prop where
  | enqueue (t : Task) (db : TaskDb) (args : List Int)
      (kwargs : List (String × Int)) (due : Option Int) (now : Int)
      (freshId : Nat) (hnd : (idsOf db).Nodup) (hfresh : freshId ∉ idsOf db) :
      Step db (Task.enqueue t db args kwargs due now freshId).1
  | wake (now : Int) (db : TaskDb) : Step db (wakeTasks now db)
  | sweep (reg : List String) (db : TaskDb) : Step db (sweepTasks reg db)
  | lock (db : TaskDb) (i : Nat) (h : stateOf db i = some TState.queued) :
      Step db (dbUpdate db i (fun r => { r with state := TState.processing }))
  | finishOk (db : TaskDb) (i : Nat) (v : Int)
      (h : stateOf db i = some TState.processing) :
      Step db (succeedInDb db i v)
  | finishFail (db : TaskDb) (i : Nat) (now : Int) (freshId : Nat)
      (h : stateOf db i = some TState.processing)
      (hfresh : freshId ∉ idsOf db) :
      Step db (failInDb db i now freshId)
  | interruptTask (db : TaskDb) (i : Nat) (now : Int) (freshId : Nat)
      (h : stateOf db i = some TState.processing)
      (hfresh : freshId ∉ idsOf db) :
      Step db (interruptInDb db i now freshId)

/-- Number of QUEUED→PROCESSING transitions of the row with primary key `j`
along a trace of table snapshots. -/
def qpCount (j : Nat) : List TaskDb → Nat
  | d :: d' :: rest =>
    (if stateOf d j = some TState.queued ∧ stateOf d' j = some TState.processing
     then 1 else 0) + qpCount j (d' :: rest)
  | _ => 0

/-! ## Schedules

Schedule timestamps are natural numbers; a cron expression is modelled by
its boundary predicate `cron : Nat → Bool` (`cron t = true` iff `t` is a
fire time of the expression). The model's time axis starts at 0, so
"previous boundary" searches are bounded below by 0. -/

/-- States of a ScheduleExec row (`models.py`, `ScheduleExec.States`). -/
inductive SState where
  | active
  | invalid
deriving DecidableEq, Repr

/-- A schedule definition (`schedule.py`, class `Schedule`). -/
structure Schedule where
  name : String
  cron : Nat → Bool
  catch_up : Bool := false
  run_on_creation : Bool := false

/-- One row of the ScheduleExec table (`models.py`, class `ScheduleExec`).
The `last_task` reference is irrelevant to the theorems and omitted. -/
structure ScheduleExec where
  name : String
  last_due : Option Nat
  state : SState
deriving Repr

/-- `croniter_range(start, stop, cron, exclude_ends=True)`: all boundary
times of `cron` in the range, in ascending order. Per croniter's documented
contract, `exclude_ends=True` drops `start` and `stop` themselves when they
are exact boundaries, so the result is the boundaries `t` with
`start < t < stop`. -/
def croniterRange (start stop : Nat) (cron : Nat → Bool) : List Nat :=
  (List.range (stop + 1)).filter
    (fun t => decide (start < t) && decide (t < stop) && cron t)

/-- `croniter(cron, t).get_prev(datetime)`: the most recent boundary strictly
before `t` (croniter's `get_prev` steps strictly backwards even when `t`
itself is a boundary), or `none` when no boundary exists in the model's
time axis. -/
def cronGetPrev (cron : Nat → Bool) (t : Nat) : Option Nat :=
  ((List.range t).filter (fun b => cron b)).getLast?

/-- The Python slice `dues[-1:]`. -/
def lastSlice (l : List Nat) : List Nat :=
  match l.getLast? with
  | some x => [x]
  | none => []

/-- The due-boundary computation shared by `Schedule.execute`
(schedule.py, lines 62-76, non-forced case) and `ScheduleExec.next_dues`
(models.py, lines 202-216). -/
def Schedule.next_dues (sch : Schedule) (last_due : Option Nat) (T : Nat) :
    List (Option Nat) :=
  match last_due with
  | none =>
    match cronGetPrev sch.cron T with
    | some b => [some b]
    | none => []
  | some L =>
    let dues := croniterRange L T sch.cron
    let dues := if sch.catch_up then dues else lastSlice dues
    dues.map some

/-- `Schedule.execute` (schedule.py, lines 40-102) on an existing
ScheduleExec row: compute the due times (`[None]` when forced), enqueue the
backing task once per due time while advancing `last_due` to each processed
due time, and set the state to ACTIVE. Returns the updated row together
with the list of `due` arguments passed to `Task.enqueue`, one per enqueued
task. -/
def Schedule.executeExec (sch : Schedule) (force : Bool) (s : ScheduleExec)
    (T : Nat) : ScheduleExec × List (Option Nat) :=
  let next_dues := if force then [none] else sch.next_dues s.last_due T
  let s' := next_dues.foldl (fun acc d => { acc with last_due := d }) s
  ({ s' with state := SState.active }, next_dues)

/-- The `get_or_create` of `Schedule.execute` (schedule.py, lines 54-59) and
of worker step 4 (worker.py, lines 218-220): a missing row is created with
`last_due = None` when `run_on_creation` is set, else `last_due = now`. -/
def scheduleGetOrCreate (existing : Option ScheduleExec) (sch : Schedule)
    (now : Nat) : ScheduleExec :=
  match existing with
  | some s => s
  | none =>
    { name := sch.name
      last_due := if sch.run_on_creation then none else some now
      state := SState.active }

/-- The due-boundary computation as the claim words it: exclusive start,
INCLUSIVE end (`L < b ≤ T`). Written from the claim, not from the source;
used only to exhibit where the two disagree. -/
def nextDuesClaimed (sch : Schedule) (last_due : Option Nat) (T : Nat) :
    List (Option Nat) :=
  match last_due with
  | none =>
    match cronGetPrev sch.cron T with
    | some b => [some b]
    | none => []
  | some L =>
    let dues := (List.range (T + 1)).filter
      (fun t => decide (L < t) && decide (t ≤ T) && sch.cron t)
    let dues := if sch.catch_up then dues else lastSlice dues
    dues.map some

/-! ## General facts about `Task.enqueue` -/

/-- Every call of `Task.enqueue` either creates no row (returning `False`)
or appends exactly the row built by `TaskExec.objects.create`. -/
theorem enqueue_cases (t : Task) (db : TaskDb) (args : List Int)
    (kwargs : List (String × Int)) (due : Option Int) (now : Int)
    (freshId : Nat) :
    (Task.enqueue t db args kwargs due now freshId).2 = none
    ∨ Task.enqueue t db args kwargs due now freshId =
        (db ++ [enqueueRow t args kwargs due now freshId],
         some (enqueueRow t args kwargs due now freshId)) := by
  simp only [Task.enqueue]
  split
  · split
    · exact Or.inl rfl
    · split
      · split
        · exact Or.inl rfl
        · split
          · exact Or.inl rfl
          · exact Or.inl rfl
      · exact Or.inr rfl
  · exact Or.inr rfl

/-! ## Claim C7 -/

/-- C7 as stated is false: enqueuing with an explicitly supplied due date
that already lies in the past (`due = 5`, `now = 10`) creates the row in
state SLEEPING, not QUEUED — `task.py` line 75 tests only whether `due` was
supplied, not whether it is in the future. The repository's own test
(`tests_tasks.py`, `test_task_states`, lines 43-45) asserts exactly this
SLEEPING outcome for a due date one hour in the past. -/
theorem claim7_counterexample :
    ((Task.enqueue { name := "a" } [] [] [] (some 5) 10 0).2.map
        (fun r => r.state)) = some TState.sleeping
    ∧ TState.sleeping ≠ TState.queued := by
  exact ⟨rfl, by decide⟩

/-- C7 (amended): every call to `Task.enqueue` that inserts a new
TaskExecution row creates it in state SLEEPING iff a due argument was
explicitly supplied — regardless of whether that due is past or future —
and in state QUEUED otherwise, with due set to the supplied value or now
and the retry policy copied from the task definition; the new row is
appended to the table. -/
theorem claim7_new_row_state (t : Task) (db : TaskDb) (args : List Int)
    (kwargs : List (String × Int)) (due : Option Int) (now : Int)
    (freshId : Nat) (r : TaskExec)
    (h : (Task.enqueue t db args kwargs due now freshId).2 = some r) :
    r.state = (if due.isSome then TState.sleeping else TState.queued)
    ∧ r.due = due.getD now
    ∧ r.retries = t.retries
    ∧ r.retry_delay = t.retry_delay
    ∧ (Task.enqueue t db args kwargs due now freshId).1 = db ++ [r] := by
  rcases enqueue_cases t db args kwargs due now freshId with hc | hc
  · rw [hc] at h
    exact absurd h (by simp)
  · have h2 : some (enqueueRow t args kwargs due now freshId) = some r := by
      rw [hc] at h
      exact h
    have hr : r = enqueueRow t args kwargs due now freshId := by
      injection h2 with h3
      exact h3.symm
    subst hr
    refine ⟨rfl, rfl, rfl, rfl, ?_⟩
    rw [hc]

/-- Witness for C7 (amended): a call without a due argument creates a
QUEUED row due now. -/
theorem claim7_witness :
    ∃ r, (Task.enqueue { name := "a" } [] [] [] none 10 0).2 = some r
      ∧ r.state = TState.queued ∧ r.due = 10 := by
  refine ⟨enqueueRow { name := "a" } [] [] none 10 0, rfl, ?_, ?_⟩
  · exact (claim7_new_row_state { name := "a" } [] [] [] none 10 0 _ rfl).1
  · exact (claim7_new_row_state { name := "a" } [] [] [] none 10 0 _ rfl).2.1

/-! ## Claim C10 -/

/-- C10: the uniqueness check of `Task.enqueue` considers only executions
in state QUEUED or SLEEPING: when every identical-payload row is in some
other state (PROCESSING, SUCCEEDED, FAILED, INTERRUPTED or INVALID), a new
row is created and returned even for a `unique=true` task. -/
theorem claim10_unique_scope (t : Task) (db : TaskDb) (args : List Int)
    (kwargs : List (String × Int)) (due : Option Int) (now : Int)
    (freshId : Nat) (hu : t.unique = true)
    (hall : ∀ r ∈ db, samePayload t args kwargs r = true →
      r.state ≠ TState.queued ∧ r.state ≠ TState.sleeping) :
    Task.enqueue t db args kwargs due now freshId =
      (db ++ [enqueueRow t args kwargs due now freshId],
       some (enqueueRow t args kwargs due now freshId)) := by
  have hq : (db.filter (samePayload t args kwargs)).find?
      (fun r => r.state == TState.queued) = none := by
    rw [List.find?_eq_none]
    intro x hx
    rw [List.mem_filter] at hx
    simp only [beq_iff_eq]
    exact (hall x hx.1 hx.2).1
  have hs : (db.filter (samePayload t args kwargs)).find?
      (fun r => r.state == TState.sleeping) = none := by
    rw [List.find?_eq_none]
    intro x hx
    rw [List.mem_filter] at hx
    simp only [beq_iff_eq]
    exact (hall x hx.1 hx.2).2
  simp only [Task.enqueue, hu, if_true, hq, hs]

/-- A PROCESSING row with the same payload as the unique task `"u"`. -/
def processingDup : TaskExec :=
  { id := 0, task_name := "u", args := [], kwargs := [], retries := 0
    retry_delay := 0, due := 0, created := 0, state := TState.processing }

/-- Witness for C10: with the only identical-payload row PROCESSING, a
second row of the unique task is created. -/
theorem claim10_witness :
    Task.enqueue { name := "u", unique := true } [processingDup] [] [] none 3 1
      = ([processingDup] ++ [enqueueRow { name := "u", unique := true } [] [] none 3 1],
         some (enqueueRow { name := "u", unique := true } [] [] none 3 1)) :=
  claim10_unique_scope { name := "u", unique := true } [processingDup] [] []
    none 3 1 rfl (by decide)

/-! ## Claim C9 -/

/-- C9: interrupting a worker while a row is PROCESSING marks the row
INTERRUPTED and always spawns exactly one SLEEPING replacement — with the
retries count unchanged and the same retry_delay (the interruption is not
counted as a retry attempt), due retry_delay seconds from now. At table
level exactly one row is added. -/
theorem claim9_interruption (row : TaskExec) (now : Int) (freshId : Nat)
    (h : row.state = TState.processing) :
    (interruptExec row now freshId).1.state = TState.interrupted
    ∧ (interruptExec row now freshId).1.replaced_by = some freshId
    ∧ (interruptExec row now freshId).2.state = TState.sleeping
    ∧ (interruptExec row now freshId).2.retries = row.retries
    ∧ (interruptExec row now freshId).2.retry_delay = row.retry_delay
    ∧ (interruptExec row now freshId).2.due = now + row.retry_delay
    ∧ (interruptExec row now freshId).2.id = freshId
    ∧ ∀ (db : TaskDb) (i : Nat), (db.find? (fun x => x.id == i)).isSome →
        (interruptInDb db i now freshId).length = db.length + 1 := by
  refine ⟨rfl, rfl, rfl, rfl, rfl, rfl, rfl, ?_⟩
  intro db i hsome
  obtain ⟨r, hr⟩ := Option.isSome_iff_exists.mp hsome
  simp [interruptInDb, hr, dbUpdate]

/-- A concrete PROCESSING row for the C9 witness. -/
def processingRow : TaskExec :=
  { id := 3, task_name := "t", args := [], kwargs := [], retries := 2
    retry_delay := 15, due := 0, created := 0, state := TState.processing }

/-- Witness for C9 at a concrete PROCESSING row. -/
theorem claim9_witness :
    (interruptExec processingRow 100 9).1.state = TState.interrupted
    ∧ (interruptExec processingRow 100 9).2.retries = processingRow.retries
    ∧ (interruptExec processingRow 100 9).2.retry_delay
        = processingRow.retry_delay
    ∧ (interruptExec processingRow 100 9).2.state = TState.sleeping := by
  have h := claim9_interruption processingRow 100 9 (by decide)
  exact ⟨h.1, h.2.2.2.1, h.2.2.2.2.1, h.2.2.1⟩

/-! ## Claim C2 -/

/-- A task execution with `retries=3, retry_delay=10` about to fail. -/
def retryDemoRow : TaskExec :=
  { id := 0, task_name := "flaky", args := [], kwargs := [], retries := 3
    retry_delay := 10, due := 0, created := 0, state := TState.processing }

/-- C2 as stated is false: with `retries=3, retry_delay=10` and an
always-raising callable there are exactly three replacements, with
due-delays 10, 20 and 40 seconds — not four with due-delays 10, 20, 40, 80.
The fourth failure happens on the replacement whose `retries` has reached
0, which spawns nothing; 80 only ever appears as the unused `retry_delay`
field of the last replacement. All five failure attempts here happen at
time 0, so each replacement's due date equals its due-delay. The
repository's test `tests_tasks.py::test_task_retries_delay` (with
`retry_delay=60`) asserts exactly this three-replacement sequence. -/
theorem claim2_counterexample :
    (failChain retryDemoRow [0, 0, 0, 0, 0] 1).map (fun r => r.due)
        = [10, 20, 40]
    ∧ ([10, 20, 40] : List Int) ≠ [10, 20, 40, 80] := by decide

/-- C2 (amended): each failure with `retries ≠ 0` spawns exactly one
SLEEPING replacement whose retries is decremented (left at -1 if not
positive), whose retry_delay is doubled, and whose due equals now plus the
failing row's old retry_delay; a failure with `retries = 0` spawns nothing.
Hence a task with `retries=3, retry_delay=10` that always fails produces
replacement due-delays 10, 20, 40 (with replacement retries 2, 1, 0 and
retry_delay fields 20, 40, 80), the 4th failure creates no further
replacement, and `retries=-1` never exhausts (every failure in an
arbitrarily long failure sequence spawns a replacement). -/
theorem claim2_retry_backoff :
    (∀ (row : TaskExec) (now : Int) (freshId : Nat), row.retries ≠ 0 →
      TaskExec.execute row CallOutcome.raises now freshId =
        ({ row with state := TState.failed, replaced_by := some freshId },
         some { id := freshId, task_name := row.task_name, args := row.args
                kwargs := row.kwargs
                retries := if row.retries > 0 then row.retries - 1 else -1
                retry_delay := row.retry_delay * 2, state := TState.sleeping
                due := now + row.retry_delay, created := now }))
    ∧ (∀ (row : TaskExec) (now : Int) (freshId : Nat), row.retries = 0 →
        TaskExec.execute row CallOutcome.raises now freshId =
          ({ row with state := TState.failed }, none))
    ∧ ((failChain retryDemoRow [0, 0, 0, 0, 0] 1).map (fun r => r.due)
          = [10, 20, 40]
       ∧ (failChain retryDemoRow [0, 0, 0, 0, 0] 1).map (fun r => r.retries)
          = [2, 1, 0]
       ∧ (failChain retryDemoRow [0, 0, 0, 0, 0] 1).map
            (fun r => r.retry_delay) = [20, 40, 80])
    ∧ (∀ (nows : List Int) (row : TaskExec) (freshId : Nat),
        row.retries = -1 →
        (failChain row nows freshId).length = nows.length) := by
  refine ⟨?_, ?_, by decide, ?_⟩
  · intro row now freshId h
    simp only [TaskExec.execute, TaskExec.create_replacement]
    rw [if_pos (show ({ row with state := TState.failed } : TaskExec).retries
      ≠ 0 from h)]
    simp
  · intro row now freshId h
    simp only [TaskExec.execute]
    rw [if_neg (show ¬ ({ row with state := TState.failed } : TaskExec).retries
      ≠ 0 from fun hc => hc h)]
  · intro nows
    induction nows with
    | nil =>
      intro row freshId h
      rfl
    | cons now rest ih =>
      intro row freshId h
      have hne : ({ row with state := TState.failed } : TaskExec).retries ≠ 0 := by
        rw [show row.retries = -1 from h] at *
        decide
      simp only [failChain, TaskExec.execute, TaskExec.create_replacement]
      rw [if_pos hne]
      rw [List.length_cons, List.length_cons]
      congr 1
      apply ih
      simp [show row.retries = -1 from h]

/-- Witness for C2 (amended), applying the failure rule at the concrete
`retries=3, retry_delay=10` row and running an infinite-retries chain. -/
theorem claim2_witness :
    TaskExec.execute retryDemoRow CallOutcome.raises 0 1 =
      ({ retryDemoRow with state := TState.failed, replaced_by := some 1 },
       some { id := 1, task_name := "flaky", args := [], kwargs := []
              retries := 2, retry_delay := 20, state := TState.sleeping
              due := 10, created := 0 })
    ∧ (failChain { retryDemoRow with retries := -1 } [0, 0, 0, 0] 1).length
        = 4 := by
  constructor
  · have h := claim2_retry_backoff.1 retryDemoRow 0 1 (by decide)
    rw [h]
    decide
  · exact claim2_retry_backoff.2.2.2 [0, 0, 0, 0]
      { retryDemoRow with retries := -1 } 1 rfl

/-! ## Claim C6 -/

/-- An already-SUCCEEDED execution of a task that is no longer registered. -/
def succeededOrphan : TaskExec :=
  { id := 7, task_name := "gone", args := [], kwargs := [], retries := 0
    retry_delay := 0, due := 0, created := 0, state := TState.succeeded }

/-- C6 as stated is false: the per-tick orphan sweep (worker.py, lines
204-210) excludes only rows already INVALID, so an already-SUCCEEDED row
whose task name is unregistered is also marked INVALID — the sweep does
modify terminal rows. -/
theorem claim6_counterexample :
    (sweepTasks [] [succeededOrphan]).map (fun r => r.state) = [TState.invalid]
    ∧ TState.invalid ≠ TState.succeeded := by decide

/-- C6 (amended): the sweep marks as INVALID exactly the rows — of any
state, including SUCCEEDED and FAILED — whose task_name is absent from the
registry and that are not already INVALID; rows of registered tasks are
left completely unchanged, no row is added or removed, and only the state
field of a row is ever modified. -/
theorem claim6_sweep (registryNames : List String) (db : TaskDb) (i : Nat)
    (h : i < db.length) (h2 : i < (sweepTasks registryNames db).length) :
    (sweepTasks registryNames db).length = db.length
    ∧ ((sweepTasks registryNames db).get ⟨i, h2⟩).id = (db.get ⟨i, h⟩).id
    ∧ ((sweepTasks registryNames db).get ⟨i, h2⟩).task_name
        = (db.get ⟨i, h⟩).task_name
    ∧ ((sweepTasks registryNames db).get ⟨i, h2⟩).args = (db.get ⟨i, h⟩).args
    ∧ ((sweepTasks registryNames db).get ⟨i, h2⟩).kwargs
        = (db.get ⟨i, h⟩).kwargs
    ∧ ((sweepTasks registryNames db).get ⟨i, h2⟩).retries
        = (db.get ⟨i, h⟩).retries
    ∧ ((sweepTasks registryNames db).get ⟨i, h2⟩).retry_delay
        = (db.get ⟨i, h⟩).retry_delay
    ∧ ((sweepTasks registryNames db).get ⟨i, h2⟩).due = (db.get ⟨i, h⟩).due
    ∧ ((sweepTasks registryNames db).get ⟨i, h2⟩).created
        = (db.get ⟨i, h⟩).created
    ∧ ((sweepTasks registryNames db).get ⟨i, h2⟩).result
        = (db.get ⟨i, h⟩).result
    ∧ ((sweepTasks registryNames db).get ⟨i, h2⟩).replaced_by
        = (db.get ⟨i, h⟩).replaced_by
    ∧ ((db.get ⟨i, h⟩).task_name ∈ registryNames →
        (sweepTasks registryNames db).get ⟨i, h2⟩ = db.get ⟨i, h⟩)
    ∧ ((db.get ⟨i, h⟩).task_name ∉ registryNames →
        ((sweepTasks registryNames db).get ⟨i, h2⟩).state = TState.invalid) := by
  have hlen : (sweepTasks registryNames db).length = db.length := by
    simp [sweepTasks]
  have key : (sweepTasks registryNames db).get ⟨i, h2⟩ =
      (if (db.get ⟨i, h⟩).state ≠ TState.invalid
          ∧ (db.get ⟨i, h⟩).task_name ∉ registryNames then
        { db.get ⟨i, h⟩ with state := TState.invalid }
      else db.get ⟨i, h⟩) := by
    simp [sweepTasks, List.get_eq_getElem]
  refine ⟨hlen, ?_⟩
  rw [key]
  by_cases hmem : (db.get ⟨i, h⟩).task_name ∈ registryNames
  · rw [if_neg (fun hc => hc.2 hmem)]
    exact ⟨rfl, rfl, rfl, rfl, rfl, rfl, rfl, rfl, rfl, rfl, fun _ => rfl,
      fun hc => absurd hmem hc⟩
  · by_cases hst : (db.get ⟨i, h⟩).state = TState.invalid
    · rw [if_neg (fun hc => hc.1 hst)]
      exact ⟨rfl, rfl, rfl, rfl, rfl, rfl, rfl, rfl, rfl, rfl, fun _ => rfl,
        fun _ => hst⟩
    · rw [if_pos ⟨hst, hmem⟩]
      exact ⟨rfl, rfl, rfl, rfl, rfl, rfl, rfl, rfl, rfl, rfl,
        fun hin => absurd hin hmem, fun _ => rfl⟩

/-- Witness for C6 (amended) on a one-row table of a SUCCEEDED orphan. -/
theorem claim6_witness :
    (sweepTasks ["keep"] [succeededOrphan]).length = 1
    ∧ ((sweepTasks ["keep"] [succeededOrphan]).get ⟨0, by decide⟩).state
        = TState.invalid := by
  have h := claim6_sweep ["keep"] [succeededOrphan] 0 (by decide) (by decide)
  exact ⟨h.1, h.2.2.2.2.2.2.2.2.2.2.2.2 (by decide)⟩

/-! ## Claim C3 -/

/-- Updating a primary key that is absent from the table is a no-op. -/
theorem dbUpdate_not_mem (db : TaskDb) (i : Nat) (g : TaskExec → TaskExec) :
    i ∉ idsOf db → dbUpdate db i g = db := by
  induction db with
  | nil => intro _; rfl
  | cons a l ih =>
    intro h
    rw [idsOf, List.map_cons] at h
    simp only [List.mem_cons, not_or] at h
    simp only [dbUpdate, List.map_cons]
    rw [if_neg (by simp only [beq_iff_eq]; exact fun hc => h.1 hc.symm)]
    congr 1
    exact ih h.2

/-- In a table with no duplicate primary keys, updating row `s.id` with a
function that fixes `s` is a no-op. -/
theorem dbUpdate_eq_self (db : TaskDb) (s : TaskExec)
    (g : TaskExec → TaskExec) :
    (idsOf db).Nodup → s ∈ db → g s = s → dbUpdate db s.id g = db := by
  induction db with
  | nil => intro _ hmem _; exact absurd hmem (List.not_mem_nil s)
  | cons a l ih =>
    intro hnd hmem hg
    rw [idsOf, List.map_cons, List.nodup_cons] at hnd
    rcases List.mem_cons.mp hmem with heq | hmem2
    · subst heq
      simp only [dbUpdate, List.map_cons]
      rw [if_pos (by simp), hg]
      congr 1
      exact dbUpdate_not_mem l s.id g hnd.1
    · have hne : a.id ≠ s.id := by
        intro hc
        exact hnd.1 (hc ▸ List.mem_map.mpr ⟨s, hmem2, rfl⟩)
      simp only [dbUpdate, List.map_cons]
      rw [if_neg (by simp only [beq_iff_eq]; exact hne)]
      congr 1
      exact ih hnd.2 hmem2 hg

/-- C3: for a `unique=true` task, enqueuing a payload for which an
identical-payload execution is already QUEUED or SLEEPING returns `False`
and creates no new row. If one is QUEUED, the table is completely
unchanged. If none is QUEUED but one is SLEEPING, then: with `due = None`
the sleeping row is promoted to QUEUED with its due set to now; with an
explicit due the sleeping row's due is shrunk to
`min(existing.due, requested due)` and nothing else about it changes (in
particular it stays SLEEPING). -/
theorem claim3_unique_collapse (t : Task) (db : TaskDb) (args : List Int)
    (kwargs : List (String × Int)) (due : Option Int) (now : Int)
    (freshId : Nat) (hu : t.unique = true) (hnd : (idsOf db).Nodup) :
    (∀ q, (db.filter (samePayload t args kwargs)).find?
        (fun r => r.state == TState.queued) = some q →
      Task.enqueue t db args kwargs due now freshId = (db, none))
    ∧ (∀ s, (db.filter (samePayload t args kwargs)).find?
          (fun r => r.state == TState.queued) = none →
        (db.filter (samePayload t args kwargs)).find?
          (fun r => r.state == TState.sleeping) = some s →
      (Task.enqueue t db args kwargs due now freshId).2 = none
      ∧ (Task.enqueue t db args kwargs due now freshId).1.length = db.length
      ∧ (due = none →
          (Task.enqueue t db args kwargs due now freshId).1
            = dbUpdate db s.id
                (fun r => { r with due := now, state := TState.queued }))
      ∧ (∀ d, due = some d →
          (Task.enqueue t db args kwargs due now freshId).1
            = dbUpdate db s.id (fun r => { r with due := min s.due d }))) := by
  constructor
  · intro q hq
    simp only [Task.enqueue, hu, if_true, hq]
  · intro s hqnone hslp
    have hsmem : s ∈ db :=
      (List.mem_filter.mp (List.mem_of_find?_eq_some hslp)).1
    refine ⟨?_, ?_, ?_, ?_⟩
    · simp only [Task.enqueue, hu, if_true, hqnone, hslp]
      rcases due with - | d
      · rfl
      · simp only []
        split
        · rfl
        · rfl
    · simp only [Task.enqueue, hu, if_true, hqnone, hslp]
      rcases due with - | d
      · simp [dbUpdate]
      · simp only []
        split
        · simp [dbUpdate]
        · rfl
    · intro hdue
      subst hdue
      simp only [Task.enqueue, hu, if_true, hqnone, hslp, Option.getD_none]
    · intro d hdue
      subst hdue
      simp only [Task.enqueue, hu, if_true, hqnone, hslp, Option.getD_some]
      split
      · rfl
      · have hle : s.due ≤ d := le_of_not_lt (by assumption)
        rw [min_eq_left hle]
        exact (dbUpdate_eq_self db s _ hnd hsmem rfl).symm

/-- The unique task and the pre-existing sleeping execution used by the C3
witness. -/
def uniqueTask : Task := { name := "u", unique := true }

/-- A SLEEPING execution of `uniqueTask` due at 60. -/
def sleepingRow : TaskExec :=
  { id := 0, task_name := "u", args := [], kwargs := [], retries := 0
    retry_delay := 0, due := 60, created := 0, state := TState.sleeping }

/-- Witness for C3: re-enqueuing the unique task with requested due 30
while a SLEEPING instance is due at 60 creates no row and shrinks the
existing row's due to min(60, 30). -/
theorem claim3_witness :
    (Task.enqueue uniqueTask [sleepingRow] [] [] (some 30) 0 1).2 = none
    ∧ (Task.enqueue uniqueTask [sleepingRow] [] [] (some 30) 0 1).1
        = dbUpdate [sleepingRow] sleepingRow.id
            (fun r => { r with due := min sleepingRow.due 30 }) := by
  have h := claim3_unique_collapse uniqueTask [sleepingRow] [] [] (some 30) 0
    1 rfl (by decide)
  have h3 := h.2 sleepingRow (by decide) (by decide)
  exact ⟨h3.1, h3.2.2.2 30 rfl⟩

/-! ## Claim C4 -/

/-- `keyLt` decides the strict lexicographic order on sort keys. -/
theorem keyLt_iff (a b : Int × Int × Int) :
    keyLt a b = true ↔
      a.1 < b.1 ∨ (a.1 = b.1 ∧ (a.2.1 < b.2.1
        ∨ (a.2.1 = b.2.1 ∧ a.2.2 < b.2.2))) := by
  simp [keyLt, Bool.or_eq_true, Bool.and_eq_true, decide_eq_true_eq,
    beq_iff_eq]

/-- Negated form of `keyLt_iff`. -/
theorem keyLt_false_iff (a b : Int × Int × Int) :
    keyLt a b = false ↔
      ¬(a.1 < b.1 ∨ (a.1 = b.1 ∧ (a.2.1 < b.2.1
        ∨ (a.2.1 = b.2.1 ∧ a.2.2 < b.2.2)))) := by
  rw [← keyLt_iff]
  cases keyLt a b <;> simp

/-- No key is strictly below itself. -/
theorem keyLt_irrefl (a : Int × Int × Int) : keyLt a a = false := by
  rw [keyLt_false_iff]
  omega

/-- Not-below is transitive. -/
theorem keyLt_chain (x a r : Int × Int × Int) (h1 : keyLt x a = false)
    (h2 : keyLt a r = false) : keyLt x r = false := by
  rw [keyLt_false_iff] at h1 h2 ⊢
  omega

/-- If `x` is strictly below `a` but not strictly below `r`, then `a` is
not strictly below `r`. -/
theorem keyLt_shift (x a r : Int × Int × Int) (h1 : keyLt x a = true)
    (h2 : keyLt x r = false) : keyLt a r = false := by
  rw [keyLt_iff] at h1
  rw [keyLt_false_iff] at h2 ⊢
  omega

/-- The running-minimum fold of `selectNext` yields an element of the list
(or the seed) that no element of the list is strictly below. -/
theorem selectFold_min (relevant : List Task) :
    ∀ (l : List TaskExec) (acc : Option TaskExec) (r : TaskExec),
      l.foldl (fun acc r =>
        match acc with
        | none => some r
        | some a =>
          if keyLt (orderKey relevant r) (orderKey relevant a) then some r
          else acc) acc = some r →
      (acc = some r ∨ r ∈ l)
      ∧ (∀ x ∈ l, keyLt (orderKey relevant x) (orderKey relevant r) = false)
      ∧ (∀ a, acc = some a →
          keyLt (orderKey relevant a) (orderKey relevant r) = false) := by
  intro l
  induction l with
  | nil =>
    intro acc r h
    simp only [List.foldl_nil] at h
    refine ⟨Or.inl h, ?_, ?_⟩
    · intro x hx
      exact absurd hx (List.not_mem_nil x)
    · intro a ha
      rw [h] at ha
      injection ha with ha2
      rw [← ha2]
      exact keyLt_irrefl _
  | cons x xs ih =>
    intro acc r h
    rw [List.foldl_cons] at h
    rcases acc with - | a0
    · dsimp only at h
      obtain ⟨hm, hall, hacc⟩ := ih (some x) r h
      have hxr := hacc x rfl
      refine ⟨?_, ?_, ?_⟩
      · rcases hm with hc | hc
        · injection hc with hc2
          exact Or.inr (hc2 ▸ List.mem_cons_self x xs)
        · exact Or.inr (List.mem_cons_of_mem x hc)
      · intro y hy
        rcases List.mem_cons.mp hy with rfl | hy2
        · exact hxr
        · exact hall y hy2
      · intro a ha
        exact absurd ha (by simp)
    · dsimp only at h
      cases hlt : keyLt (orderKey relevant x) (orderKey relevant a0) with
      | true =>
        rw [hlt] at h
        rw [if_pos rfl] at h
        obtain ⟨hm, hall, hacc⟩ := ih (some x) r h
        have hxr := hacc x rfl
        refine ⟨?_, ?_, ?_⟩
        · rcases hm with hc | hc
          · injection hc with hc2
            exact Or.inr (hc2 ▸ List.mem_cons_self x xs)
          · exact Or.inr (List.mem_cons_of_mem x hc)
        · intro y hy
          rcases List.mem_cons.mp hy with rfl | hy2
          · exact hxr
          · exact hall y hy2
        · intro a ha
          injection ha with ha2
          subst ha2
          exact keyLt_shift _ _ _ hlt hxr
      | false =>
        rw [hlt] at h
        rw [if_neg Bool.false_ne_true] at h
        obtain ⟨hm, hall, hacc⟩ := ih (some a0) r h
        have ha0r := hacc a0 rfl
        refine ⟨?_, ?_, ?_⟩
        · rcases hm with hc | hc
          · exact Or.inl hc
          · exact Or.inr (List.mem_cons_of_mem x hc)
        · intro y hy
          rcases List.mem_cons.mp hy with rfl | hy2
          · exact keyLt_chain _ _ _ hlt ha0r
          · exact hall y hy2
        · intro a ha
          injection ha with ha2
          subst ha2
          exact ha0r

/-- Priority-1 task of the spec's ordering example. -/
def taskPrioA : Task := { name := "a", priority := 1 }

/-- Priority-2 task of the spec's ordering example. -/
def taskPrioB : Task := { name := "b", priority := 2 }

/-- The table of the spec's ordering example: executions 1a (id 0) and 1b
(id 1) of the priority-1 task, then execution 2 (id 2) of the priority-2
task, enqueued in this order at times 0, 1, 2. -/
def prioExampleDb : TaskDb :=
  (Task.enqueue taskPrioB
    ((Task.enqueue taskPrioA
      ((Task.enqueue taskPrioA [] [1] [] none 0 0).1) [2] [] none 1 1).1)
    [] [] none 2 2).1

/-- C4: the row selected for execution is always a QUEUED row of the
worker's queue set that no other such row strictly precedes under the
ordering (priority descending, then due ascending, then created
ascending); and for the spec's example — tasks enqueued in order
[1a, 1b, 2] with priorities [1, 1, 2] — the execution order is
[2, 1a, 1b], i.e. ids [2, 0, 1]. -/
theorem claim4_priority_order :
    (∀ (relevant : List Task) (db : TaskDb) (r : TaskExec),
      selectNext relevant db = some r →
      r ∈ dueTasks relevant db
      ∧ ∀ x ∈ dueTasks relevant db,
          keyLt (orderKey relevant x) (orderKey relevant r) = false)
    ∧ runWorker [taskPrioA, taskPrioB] 3 prioExampleDb = [2, 0, 1] := by
  constructor
  · intro relevant db r h
    obtain ⟨hm, hall, -⟩ :=
      selectFold_min relevant (dueTasks relevant db) none r h
    refine ⟨?_, hall⟩
    rcases hm with hc | hc
    · exact absurd hc (by simp)
    · exact hc
  · decide

/-- Witness for C4: in the example table the selected row is the
priority-2 execution (id 2), which is minimal for the sort key. -/
theorem claim4_witness :
    enqueueRow taskPrioB [] [] none 2 2
        ∈ dueTasks [taskPrioA, taskPrioB] prioExampleDb
    ∧ ∀ x ∈ dueTasks [taskPrioA, taskPrioB] prioExampleDb,
        keyLt (orderKey [taskPrioA, taskPrioB] x)
          (orderKey [taskPrioA, taskPrioB]
            (enqueueRow taskPrioB [] [] none 2 2)) = false :=
  claim4_priority_order.1 [taskPrioA, taskPrioB] prioExampleDb
    (enqueueRow taskPrioB [] [] none 2 2) (by decide)

/-! ## Claims C5 and C8: schedule boundary computation -/

/-- A `getLast?` element is a member of its list. -/
theorem getLast?_mem {α : Type} (l : List α) (a : α)
    (h : l.getLast? = some a) : a ∈ l := by
  obtain ⟨hne, heq⟩ := List.mem_getLast?_eq_getLast (Option.mem_def.mpr h)
  rw [heq]
  exact List.getLast_mem hne

/-- The last element of a filtered `range` is the greatest number below `n`
satisfying the predicate. -/
theorem getLast?_filter_range_max (p : Nat → Bool) :
    ∀ (n x : Nat), ((List.range n).filter p).getLast? = some x →
      x < n ∧ p x = true ∧ ∀ y, y < n → p y = true → y ≤ x := by
  intro n
  induction n with
  | zero =>
    intro x h
    simp at h
  | succ m ih =>
    intro x h
    rw [List.range_succ, List.filter_append] at h
    cases hp : p m with
    | true =>
      rw [show List.filter p [m] = [m] by simp [hp],
        List.getLast?_concat] at h
      injection h with h2
      subst h2
      refine ⟨Nat.lt_succ_self _, hp, ?_⟩
      intro y hy _
      exact Nat.lt_succ_iff.mp hy
    | false =>
      rw [show List.filter p [m] = [] by simp [hp], List.append_nil] at h
      obtain ⟨h1, h2, h3⟩ := ih x h
      refine ⟨Nat.lt_succ_of_lt h1, h2, ?_⟩
      intro y hy hpy
      rcases Nat.lt_succ_iff_lt_or_eq.mp hy with hy2 | rfl
      · exact h3 y hy2 hpy
      · rw [hp] at hpy
        exact absurd hpy (by simp)

/-- Membership in the boundary range: strictly between both endpoints. -/
theorem mem_croniterRange (start stop : Nat) (cron : Nat → Bool) (b : Nat) :
    b ∈ croniterRange start stop cron ↔
      start < b ∧ b < stop ∧ cron b = true := by
  simp only [croniterRange, List.mem_filter, List.mem_range,
    Bool.and_eq_true, decide_eq_true_eq]
  constructor
  · rintro ⟨h1, ⟨h2, h3⟩, h4⟩
    exact ⟨h2, h3, h4⟩
  · rintro ⟨h1, h2, h3⟩
    exact ⟨by omega, ⟨h1, h2⟩, h3⟩

/-- Elements of the Python slice `l[-1:]` are the last element of `l`. -/
theorem mem_lastSlice (l : List Nat) (x : Nat) (hx : x ∈ lastSlice l) :
    l.getLast? = some x := by
  unfold lastSlice at hx
  cases h : l.getLast? with
  | none =>
    rw [h] at hx
    exact absurd hx (List.not_mem_nil x)
  | some a =>
    rw [h] at hx
    rcases List.mem_singleton.mp hx with rfl
    rfl

/-- Every due time produced for an existing `last_due = L` is a cron
boundary strictly between `L` and `T`. -/
theorem next_dues_mem (sch : Schedule) (L T : Nat) (x : Option Nat)
    (hx : x ∈ Schedule.next_dues sch (some L) T) :
    ∃ b, x = some b ∧ L < b ∧ b < T ∧ sch.cron b = true := by
  simp only [Schedule.next_dues] at hx
  by_cases hc : sch.catch_up = true
  · rw [if_pos hc] at hx
    obtain ⟨b, hb, rfl⟩ := List.mem_map.mp hx
    obtain ⟨h1, h2, h3⟩ := (mem_croniterRange L T sch.cron b).mp hb
    exact ⟨b, rfl, h1, h2, h3⟩
  · rw [if_neg hc] at hx
    obtain ⟨b, hb, rfl⟩ := List.mem_map.mp hx
    have hmem := getLast?_mem _ _ (mem_lastSlice _ b hb)
    obtain ⟨h1, h2, h3⟩ := (mem_croniterRange L T sch.cron b).mp hmem
    exact ⟨b, rfl, h1, h2, h3⟩

/-- The loop of `Schedule.execute` leaves `last_due` at the last processed
due time (or untouched when nothing was due). -/
theorem foldl_set_last_due (l : List (Option Nat)) (s : ScheduleExec) :
    (l.foldl (fun acc d => { acc with last_due := d }) s).last_due
      = l.getLast?.getD s.last_due := by
  induction l generalizing s with
  | nil => rfl
  | cons d rest ih =>
    rw [List.foldl_cons, ih]
    cases rest with
    | nil => rfl
    | cons e tail =>
      rw [List.getLast?_cons_cons,
        List.getLast?_eq_getLast_of_ne_nil (List.cons_ne_nil e tail)]
      rfl

/-- "Daily at noon" on an hour-granularity time axis: one day is 24 units
and the boundary predicate fires at hour 12 of each day. -/
def dailyNoonSch : Schedule :=
  { name := "daily-noon", cron := fun t => t % 24 == 12, catch_up := true }

/-- C5 as stated is false: with `last_due = 12` (noon of day 0) and the
check running exactly at noon of day 3 (`T = 84`), the code enqueues
boundaries 36 and 60 only — `croniter_range(..., exclude_ends=True)`
excludes BOTH endpoints, so the due boundaries are `L < b < T`, not
`L < b ≤ T` as claimed, and the boundary falling exactly on `T` is skipped. -/
theorem claim5_counterexample :
    Schedule.next_dues dailyNoonSch (some 12) 84 = [some 36, some 60]
    ∧ nextDuesClaimed dailyNoonSch (some 12) 84 = [some 36, some 60, some 84]
    ∧ ([some 36, some 60] : List (Option Nat)) ≠ [some 36, some 60, some 84] := by
  exact ⟨by decide, by decide, by decide⟩

/-- C5 (amended): for `last_due = L`, the schedule enqueues tasks for
exactly the cron boundaries `b` with `L < b < T` (both ends exclusive);
with `catch_up=false` the list is collapsed to its greatest element only;
with `last_due = None` the single due time is the greatest boundary
strictly before `T`. A daily-at-noon schedule last processed at noon of
day 0 and checked shortly after noon of day 3 (`T = 85`) enqueues exactly
3 tasks with `catch_up=true` and exactly 1 with `catch_up=false`. -/
theorem claim5_boundaries :
    (∀ (sch : Schedule) (L T b : Nat), sch.catch_up = true →
      (some b ∈ Schedule.next_dues sch (some L) T ↔
        L < b ∧ b < T ∧ sch.cron b = true))
    ∧ (∀ (sch : Schedule) (L T : Nat), sch.catch_up = false →
        (Schedule.next_dues sch (some L) T).length ≤ 1
        ∧ ∀ b, some b ∈ Schedule.next_dues sch (some L) T →
            L < b ∧ b < T ∧ sch.cron b = true
            ∧ ∀ c, L < c → c < T → sch.cron c = true → c ≤ b)
    ∧ (∀ (sch : Schedule) (T b : Nat),
        Schedule.next_dues sch none T = [some b] →
        b < T ∧ sch.cron b = true ∧ ∀ c, c < T → sch.cron c = true → c ≤ b)
    ∧ ((Schedule.executeExec dailyNoonSch false
          { name := "daily-noon", last_due := some 12, state := SState.active }
          85).2.length = 3
      ∧ (Schedule.executeExec { dailyNoonSch with catch_up := false } false
          { name := "daily-noon", last_due := some 12, state := SState.active }
          85).2 = [some 84]) := by
  refine ⟨?_, ?_, ?_, by decide, by decide⟩
  · intro sch L T b hc
    simp only [Schedule.next_dues, if_pos hc, List.mem_map,
      Option.some.injEq]
    constructor
    · rintro ⟨a, ha, rfl⟩
      exact (mem_croniterRange L T sch.cron a).mp ha
    · intro hb
      exact ⟨b, (mem_croniterRange L T sch.cron b).mpr hb, rfl⟩
  · intro sch L T hc
    have hcc : ¬ (sch.catch_up = true) := by simp [hc]
    constructor
    · simp only [Schedule.next_dues, List.length_map]
      rw [if_neg hcc]
      unfold lastSlice
      cases (croniterRange L T sch.cron).getLast? <;> simp
    · intro b hb
      simp only [Schedule.next_dues, List.mem_map, Option.some.injEq] at hb
      rw [if_neg hcc] at hb
      obtain ⟨a, ha, rfl⟩ := hb
      have hlast := mem_lastSlice _ a ha
      obtain ⟨h1, h2, h3⟩ := getLast?_filter_range_max _ (T + 1) a hlast
      simp only [Bool.and_eq_true, decide_eq_true_eq] at h2
      refine ⟨h2.1.1, h2.1.2, h2.2, ?_⟩
      intro c hc1 hc2 hc3
      exact h3 c (by omega) (by simp [hc1, hc2, hc3])
  · intro sch T b h
    cases hc : cronGetPrev sch.cron T with
    | none =>
      rw [Schedule.next_dues, hc] at h
      exact absurd h (by simp)
    | some a =>
      rw [Schedule.next_dues, hc] at h
      have hab : a = b := by
        simpa using h
      subst hab
      exact getLast?_filter_range_max sch.cron T a hc

/-- Witness for C5 (amended) at the daily-noon schedule: membership of
boundary 36 and maximality of boundary 84. -/
theorem claim5_witness :
    (some 36 ∈ Schedule.next_dues dailyNoonSch (some 12) 85
      ↔ 12 < 36 ∧ 36 < 85 ∧ dailyNoonSch.cron 36 = true)
    ∧ (12 < 84 ∧ 84 < 85 ∧ dailyNoonSch.cron 84 = true
        ∧ ∀ c, 12 < c → c < 85 → dailyNoonSch.cron c = true → c ≤ 84) := by
  constructor
  · exact claim5_boundaries.1 dailyNoonSch 12 85 36 rfl
  · exact (claim5_boundaries.2.1 { dailyNoonSch with catch_up := false }
      12 85 rfl).2 84 (by decide)

/-- A pre-existing schedule bookkeeping row with `last_due = 100`. -/
def staleScheduleRow : ScheduleExec :=
  { name := "daily-noon", last_due := some 100, state := SState.active }

/-- C8 as stated is false: a forced execution (schedule.py, lines 62-63
and 96: `next_dues = [None]`, then `last_due = next_due`) resets an
existing row's `last_due` from `some 100` back to `None` — a backward
move that is not the first-creation exception. -/
theorem claim8_counterexample :
    staleScheduleRow.last_due = some 100
    ∧ (Schedule.executeExec dailyNoonSch true staleScheduleRow 200).1.last_due
        = none
    ∧ (none : Option Nat) ≠ some 100 := by
  exact ⟨rfl, rfl, by decide⟩

/-- C8 (amended): non-forced schedule execution only moves `last_due`
forward (never backward), and when boundaries were processed it leaves
`last_due` at the last processed boundary; the state is always reset to
ACTIVE. Forced execution however resets `last_due` to None. -/
theorem claim8_last_due_forward :
    (∀ (sch : Schedule) (s : ScheduleExec) (T L : Nat),
      s.last_due = some L →
      ∃ L', (Schedule.executeExec sch false s T).1.last_due = some L'
        ∧ L ≤ L')
    ∧ (∀ (sch : Schedule) (s : ScheduleExec) (T : Nat) (d : Option Nat),
        (sch.next_dues s.last_due T).getLast? = some d →
        (Schedule.executeExec sch false s T).1.last_due = d)
    ∧ (∀ (sch : Schedule) (force : Bool) (s : ScheduleExec) (T : Nat),
        (Schedule.executeExec sch force s T).1.state = SState.active)
    ∧ (∀ (sch : Schedule) (s : ScheduleExec) (T : Nat),
        (Schedule.executeExec sch true s T).1.last_due = none) := by
  refine ⟨?_, ?_, ?_, ?_⟩
  · intro sch s T L hL
    have hfold : (Schedule.executeExec sch false s T).1.last_due
        = (sch.next_dues s.last_due T).getLast?.getD s.last_due := by
      simp only [Schedule.executeExec, Bool.false_eq_true, if_false]
      exact foldl_set_last_due _ s
    cases hlast : (sch.next_dues s.last_due T).getLast? with
    | none =>
      refine ⟨L, ?_, le_refl L⟩
      rw [hfold, hlast, Option.getD_none]
      exact hL
    | some d =>
      have hmem := getLast?_mem _ _ hlast
      rw [hL] at hmem
      obtain ⟨b, rfl, hb1, -, -⟩ := next_dues_mem sch L T d hmem
      refine ⟨b, ?_, le_of_lt hb1⟩
      rw [hfold, hlast, Option.getD_some]
  · intro sch s T d hlast
    have hfold : (Schedule.executeExec sch false s T).1.last_due
        = (sch.next_dues s.last_due T).getLast?.getD s.last_due := by
      simp only [Schedule.executeExec, Bool.false_eq_true, if_false]
      exact foldl_set_last_due _ s
    rw [hfold, hlast, Option.getD_some]
  · intro sch force s T
    rfl
  · intro sch s T
    rfl

/-- Witness for C8 (amended): non-forced execution of the daily-noon
schedule at `T = 200` advances `last_due = 100` forward and reactivates
the row. -/
theorem claim8_witness :
    (∃ L', (Schedule.executeExec dailyNoonSch false staleScheduleRow
        200).1.last_due = some L' ∧ 100 ≤ L')
    ∧ (Schedule.executeExec dailyNoonSch false staleScheduleRow 200).1.state
        = SState.active := by
  exact ⟨claim8_last_due_forward.1 dailyNoonSch staleScheduleRow 200 100 rfl,
    claim8_last_due_forward.2.2.1 dailyNoonSch false staleScheduleRow 200⟩

/-! ## Claim C1: helper lemmas about `stateOf` -/

/-- `find?` by id commutes with an id-preserving map. -/
theorem find?_map_id (g : TaskExec → TaskExec)
    (hg : ∀ r, (g r).id = r.id) (db : TaskDb) (j : Nat) :
    (db.map g).find? (fun r => r.id == j)
      = (db.find? (fun r => r.id == j)).map g := by
  induction db with
  | nil => rfl
  | cons a l ih =>
    rw [List.map_cons, List.find?_cons, List.find?_cons, hg a]
    cases hc : (a.id == j) with
    | true => rfl
    | false => exact ih

/-- `stateOf` after an id-preserving map. -/
theorem stateOf_map (g : TaskExec → TaskExec) (hg : ∀ r, (g r).id = r.id)
    (db : TaskDb) (j : Nat) :
    stateOf (db.map g) j
      = (db.find? (fun r => r.id == j)).map (fun r => (g r).state) := by
  rw [stateOf, find?_map_id g hg db j]
  cases db.find? (fun r => r.id == j) <;> rfl

/-- Destructuring a defined `stateOf`. -/
theorem stateOf_eq_some (db : TaskDb) (j : Nat) (s : TState)
    (h : stateOf db j = some s) :
    ∃ r, db.find? (fun x => x.id == j) = some r ∧ r.state = s := by
  rw [stateOf] at h
  cases hf : db.find? (fun x => x.id == j) with
  | none =>
    rw [hf] at h
    exact absurd h (by simp)
  | some r =>
    rw [hf] at h
    injection h with h2
    exact ⟨r, rfl, h2⟩

/-- Rows already present keep their `stateOf` when rows are appended. -/
theorem stateOf_append_of_isSome (db l2 : TaskDb) (j : Nat)
    (h : (stateOf db j).isSome) : stateOf (db ++ l2) j = stateOf db j := by
  rw [stateOf] at h
  cases hf : db.find? (fun r => r.id == j) with
  | none =>
    rw [hf] at h
    simp at h
  | some r =>
    rw [stateOf, stateOf, List.find?_append, hf]
    rfl

/-- An id absent from the table resolves in the appended rows. -/
theorem stateOf_append_of_none (db l2 : TaskDb) (j : Nat)
    (h : stateOf db j = none) : stateOf (db ++ l2) j = stateOf l2 j := by
  rw [stateOf] at h
  cases hf : db.find? (fun r => r.id == j) with
  | none =>
    rw [stateOf, List.find?_append, hf]
    rfl
  | some r =>
    rw [hf] at h
    simp at h

/-- `stateOf` after a row update, as a map over the found row. -/
theorem stateOf_dbUpdate (db : TaskDb) (i : Nat) (g : TaskExec → TaskExec)
    (hg : ∀ r, r.id = i → (g r).id = r.id) (j : Nat) :
    stateOf (dbUpdate db i g) j
      = (db.find? (fun r => r.id == j)).map
          (fun r => if r.id == i then (g r).state else r.state) := by
  have hgg : ∀ r : TaskExec,
      ((fun r => if r.id == i then g r else r) r).id = r.id := by
    intro r
    by_cases hr : (r.id == i) = true
    · simp only [hr, if_true]
      exact hg r (by simpa using hr)
    · have hr2 : (r.id == i) = false := by
        cases hx : (r.id == i)
        · rfl
        · exact absurd hx hr
      show (if (r.id == i) = true then g r else r).id = r.id
      rw [hr2, if_neg Bool.false_ne_true]
  rw [show dbUpdate db i g = db.map (fun r => if r.id == i then g r else r)
    from rfl]
  rw [stateOf_map _ hgg db j]
  congr 1
  funext r
  by_cases hr : (r.id == i) = true
  · rw [if_pos hr, if_pos hr]
  · rw [if_neg hr, if_neg hr]

/-- Case analysis of a row's `stateOf` after an update of row `i`. -/
theorem stateOf_dbUpdate_cases (db : TaskDb) (i : Nat)
    (g : TaskExec → TaskExec) (hg : ∀ r, r.id = i → (g r).id = r.id)
    (j : Nat) (s : TState) (hs : stateOf db j = some s) :
    ∃ r0, db.find? (fun x => x.id == j) = some r0 ∧ r0.state = s
      ∧ ((j = i ∧ stateOf (dbUpdate db i g) j = some ((g r0).state))
         ∨ (j ≠ i ∧ stateOf (dbUpdate db i g) j = some s)) := by
  obtain ⟨r0, hf, hst⟩ := stateOf_eq_some db j s hs
  have hrid : r0.id = j := by simpa using List.find?_some hf
  refine ⟨r0, hf, hst, ?_⟩
  by_cases hji : j = i
  · left
    refine ⟨hji, ?_⟩
    rw [stateOf_dbUpdate db i g hg j, hf]
    simp only [Option.map_some']
    rw [if_pos (show (r0.id == i) = true by rw [hrid, hji]; simp)]
  · right
    refine ⟨hji, ?_⟩
    rw [stateOf_dbUpdate db i g hg j, hf]
    simp only [Option.map_some']
    rw [if_neg (show ¬ (r0.id == i) = true by
      simp only [beq_iff_eq]
      rw [hrid]
      exact hji)]
    rw [hst]

/-- A defined `stateOf` means the id occurs in the table. -/
theorem stateOf_mem (db : TaskDb) (j : Nat) (s : TState)
    (h : stateOf db j = some s) : j ∈ idsOf db := by
  rw [stateOf] at h
  cases hf : db.find? (fun r => r.id == j) with
  | none =>
    rw [hf] at h
    simp at h
  | some r =>
    have hm := List.mem_of_find?_eq_some hf
    have hp : r.id = j := by simpa using List.find?_some hf
    exact List.mem_map.mpr ⟨r, hm, hp⟩

/-- An id absent from the table has no state. -/
theorem stateOf_not_mem (db : TaskDb) (j : Nat) (h : j ∉ idsOf db) :
    stateOf db j = none := by
  rw [stateOf, List.find?_eq_none.mpr ?_]
  · rfl
  · intro x hx
    simp only [beq_iff_eq]
    intro hc
    exact h (List.mem_map.mpr ⟨x, hx, hc⟩)

/-- In a table with no duplicate primary keys, `find?` by the id of a
member row returns that row. -/
theorem find?_of_nodup_mem (db : TaskDb) (s : TaskExec) :
    (idsOf db).Nodup → s ∈ db →
    db.find? (fun r => r.id == s.id) = some s := by
  induction db with
  | nil =>
    intro _ hmem
    exact absurd hmem (List.not_mem_nil s)
  | cons a l ih =>
    intro hnd hmem
    rw [idsOf, List.map_cons, List.nodup_cons] at hnd
    rw [List.find?_cons]
    rcases List.mem_cons.mp hmem with rfl | hmem2
    · rw [show (s.id == s.id) = true by simp]
    · have hne : (a.id == s.id) = false := by
        simp only [beq_eq_false_iff_ne, ne_eq]
        intro hc
        exact hnd.1 (hc ▸ List.mem_map.mpr ⟨s, hmem2, rfl⟩)
      rw [hne]
      exact ih hnd.2 hmem2

/-- Every state rank is at most 3. -/
theorem rank_le_three (s : TState) : rank s ≤ 3 := by
  cases s <;> decide

/-- The updated row of a failing execution keeps its id and is FAILED. -/
theorem execute_raises_fst (r : TaskExec) (now : Int) (fid : Nat) :
    (TaskExec.execute r CallOutcome.raises now fid).1.id = r.id
    ∧ (TaskExec.execute r CallOutcome.raises now fid).1.state
        = TState.failed := by
  simp only [TaskExec.execute, TaskExec.create_replacement]
  split
  · exact ⟨rfl, rfl⟩
  · exact ⟨rfl, rfl⟩

/-- A replacement created by a failing execution is a fresh SLEEPING row. -/
theorem execute_raises_snd (r : TaskExec) (now : Int) (fid : Nat)
    (x : TaskExec)
    (h : (TaskExec.execute r CallOutcome.raises now fid).2 = some x) :
    x.id = fid ∧ x.state = TState.sleeping := by
  simp only [TaskExec.execute, TaskExec.create_replacement] at h
  split at h
  · injection h with h2
    rw [← h2]
    exact ⟨rfl, rfl⟩
  · exact absurd h (by simp)

/-- The wake-up map preserves row ids. -/
theorem wake_id (now : Int) : ∀ r : TaskExec,
    ((fun r => if r.state = TState.sleeping ∧ r.due ≤ now
        then { r with state := TState.queued } else r) r).id = r.id := by
  intro r
  dsimp only
  split <;> rfl

/-- The orphan-sweep map preserves row ids. -/
theorem sweep_id (reg : List String) : ∀ r : TaskExec,
    ((fun r => if r.state ≠ TState.invalid ∧ r.task_name ∉ reg
        then { r with state := TState.invalid } else r) r).id = r.id := by
  intro r
  dsimp only
  split <;> rfl

/-- The table after `Task.enqueue` is the old table, the old table with the
fresh row appended, or the old table with one SLEEPING row promoted
(due = now, state = QUEUED) or due-shrunk (state untouched). -/
theorem enqueue_table_cases (t : Task) (db : TaskDb) (args : List Int)
    (kwargs : List (String × Int)) (due : Option Int) (now : Int)
    (freshId : Nat) :
    (Task.enqueue t db args kwargs due now freshId).1 = db
    ∨ (Task.enqueue t db args kwargs due now freshId).1
        = db ++ [enqueueRow t args kwargs due now freshId]
    ∨ (∃ s0, s0 ∈ db ∧ s0.state = TState.sleeping
        ∧ (Task.enqueue t db args kwargs due now freshId).1
            = dbUpdate db s0.id
                (fun r =>
                  { r with due := due.getD now, state := TState.queued }))
    ∨ (∃ s0, s0 ∈ db ∧ s0.state = TState.sleeping
        ∧ (Task.enqueue t db args kwargs due now freshId).1
            = dbUpdate db s0.id
                (fun r => { r with due := min s0.due (due.getD now) })) := by
  simp only [Task.enqueue]
  split
  · split
    · exact Or.inl rfl
    · split
      · rename_i s0 hfs
        have hmem : s0 ∈ db :=
          (List.mem_filter.mp (List.mem_of_find?_eq_some hfs)).1
        have hslp : s0.state = TState.sleeping := by
          simpa using List.find?_some hfs
        split
        · exact Or.inr (Or.inr (Or.inl ⟨s0, hmem, hslp, rfl⟩))
        · split
          · exact Or.inr (Or.inr (Or.inr ⟨s0, hmem, hslp, rfl⟩))
          · exact Or.inl rfl
      · exact Or.inr (Or.inl rfl)
  · exact Or.inr (Or.inl rfl)

/-- Along any atomic transaction, a row's lifecycle rank never decreases
(and rows are never deleted). -/
theorem step_rank_mono {d d' : TaskDb} (hstep : Step d d') (j : Nat)
    (s : TState) (hs : stateOf d j = some s) :
    ∃ s', stateOf d' j = some s' ∧ rank s ≤ rank s' := by
  cases hstep with
  | enqueue t db args kwargs due now freshId hnd hfresh =>
    rcases enqueue_table_cases t d args kwargs due now freshId with
      hcb | hcb | ⟨s0, hs0mem, hs0slp, hcb⟩ | ⟨s0, hs0mem, hs0slp, hcb⟩
    · rw [hcb]
      exact ⟨s, hs, le_refl _⟩
    · rw [hcb]
      rw [stateOf_append_of_isSome d _ j (by rw [hs]; rfl)]
      exact ⟨s, hs, le_refl _⟩
    · rw [hcb]
      obtain ⟨r0, hf, hst, hcase⟩ := stateOf_dbUpdate_cases d s0.id
        (fun r => { r with due := due.getD now, state := TState.queued })
        (fun x _ => rfl) j s hs
      rcases hcase with ⟨hji, heq⟩ | ⟨-, heq⟩
      · have hfs0 : d.find? (fun x => x.id == s0.id) = some s0 :=
          find?_of_nodup_mem d s0 hnd hs0mem
        rw [hji] at hf
        rw [hf] at hfs0
        injection hfs0 with he
        refine ⟨TState.queued, heq, ?_⟩
        rw [← hst, he, hs0slp]
        decide
      · exact ⟨s, heq, le_refl _⟩
    · rw [hcb]
      obtain ⟨r0, hf, hst, hcase⟩ := stateOf_dbUpdate_cases d s0.id
        (fun r => { r with due := min s0.due (due.getD now) })
        (fun x _ => rfl) j s hs
      rcases hcase with ⟨-, heq⟩ | ⟨-, heq⟩
      · refine ⟨s, ?_, le_refl _⟩
        rw [heq]
        exact congrArg some hst
      · exact ⟨s, heq, le_refl _⟩
  | wake now db =>
    obtain ⟨r0, hf, hst⟩ := stateOf_eq_some d j s hs
    have hmap : stateOf (wakeTasks now d) j
        = (d.find? (fun r => r.id == j)).map
            (fun r => ((fun r => if r.state = TState.sleeping ∧ r.due ≤ now
              then { r with state := TState.queued } else r) r).state) :=
      stateOf_map _ (wake_id now) d j
    rw [hmap, hf, Option.map_some']
    by_cases hcond : r0.state = TState.sleeping ∧ r0.due ≤ now
    · refine ⟨TState.queued, ?_, ?_⟩
      · show some (if r0.state = TState.sleeping ∧ r0.due ≤ now
            then { r0 with state := TState.queued } else r0).state
            = some TState.queued
        rw [if_pos hcond]
      · rw [← hst, hcond.1]
        decide
    · refine ⟨s, ?_, le_refl _⟩
      show some (if r0.state = TState.sleeping ∧ r0.due ≤ now
          then { r0 with state := TState.queued } else r0).state = some s
      rw [if_neg hcond]
      exact congrArg some hst
  | sweep reg db =>
    obtain ⟨r0, hf, hst⟩ := stateOf_eq_some d j s hs
    have hmap : stateOf (sweepTasks reg d) j
        = (d.find? (fun r => r.id == j)).map
            (fun r => ((fun r => if r.state ≠ TState.invalid ∧ r.task_name ∉ reg
              then { r with state := TState.invalid } else r) r).state) :=
      stateOf_map _ (sweep_id reg) d j
    rw [hmap, hf, Option.map_some']
    by_cases hcond : r0.state ≠ TState.invalid ∧ r0.task_name ∉ reg
    · refine ⟨TState.invalid, ?_, ?_⟩
      · show some (if r0.state ≠ TState.invalid ∧ r0.task_name ∉ reg
            then { r0 with state := TState.invalid } else r0).state
            = some TState.invalid
        rw [if_pos hcond]
      · exact le_trans (rank_le_three s) (by decide)
    · refine ⟨s, ?_, le_refl _⟩
      show some (if r0.state ≠ TState.invalid ∧ r0.task_name ∉ reg
          then { r0 with state := TState.invalid } else r0).state = some s
      rw [if_neg hcond]
      exact congrArg some hst
  | lock db i h =>
    obtain ⟨r0, hf, hst, hcase⟩ := stateOf_dbUpdate_cases d i
      (fun r => { r with state := TState.processing }) (fun x _ => rfl) j s hs
    rcases hcase with ⟨hji, heq⟩ | ⟨-, heq⟩
    · subst hji
      have hsq : s = TState.queued := by
        rw [hs] at h
        injection h
      refine ⟨TState.processing, heq, ?_⟩
      rw [hsq]
      decide
    · exact ⟨s, heq, le_refl _⟩
  | finishOk db i v h =>
    obtain ⟨r0, hf, hst, hcase⟩ := stateOf_dbUpdate_cases d i
      (fun r => { r with state := TState.succeeded, result := some v })
      (fun x _ => rfl) j s hs
    rcases hcase with ⟨hji, heq⟩ | ⟨-, heq⟩
    · subst hji
      have hsp : s = TState.processing := by
        rw [hs] at h
        injection h
      refine ⟨TState.succeeded, heq, ?_⟩
      rw [hsp]
      decide
    · exact ⟨s, heq, le_refl _⟩
  | finishFail db i now freshId h hfresh =>
    obtain ⟨r, hfr, hrst⟩ := stateOf_eq_some d i TState.processing h
    have hri : r.id = i := by simpa using List.find?_some hfr
    rcases hex : TaskExec.execute r CallOutcome.raises now freshId with ⟨r2, orep⟩
    have hfst := execute_raises_fst r now freshId
    rw [hex] at hfst
    have hid2 : r2.id = r.id := hfst.1
    have hst2 : r2.state = TState.failed := hfst.2
    have hgid : ∀ x : TaskExec, x.id = i → ((fun _ => r2) x).id = x.id := by
      intro x hx
      show r2.id = x.id
      rw [hid2, hri, hx]
    rcases orep with - | repl
    · have hred : failInDb d i now freshId = dbUpdate d i (fun _ => r2) := by
        simp only [failInDb, hfr, hex]
      rw [hred]
      obtain ⟨r0, hf0, hst0, hcase⟩ := stateOf_dbUpdate_cases d i
        (fun _ => r2) hgid j s hs
      rcases hcase with ⟨hji, heq⟩ | ⟨-, heq⟩
      · subst hji
        have hsp : s = TState.processing := by
          rw [hs] at h
          injection h
        refine ⟨r2.state, heq, ?_⟩
        rw [hsp, hst2]
        decide
      · exact ⟨s, heq, le_refl _⟩
    · have hred : failInDb d i now freshId
          = dbUpdate d i (fun _ => r2) ++ [repl] := by
        simp only [failInDb, hfr, hex]
      rw [hred]
      obtain ⟨r0, hf0, hst0, hcase⟩ := stateOf_dbUpdate_cases d i
        (fun _ => r2) hgid j s hs
      rcases hcase with ⟨hji, heq⟩ | ⟨-, heq⟩
      · subst hji
        have hsp : s = TState.processing := by
          rw [hs] at h
          injection h
        refine ⟨r2.state, ?_, ?_⟩
        · rw [stateOf_append_of_isSome _ _ _ (by rw [heq]; rfl)]
          exact heq
        · rw [hsp, hst2]
          decide
      · refine ⟨s, ?_, le_refl _⟩
        rw [stateOf_append_of_isSome _ _ _ (by rw [heq]; rfl)]
        exact heq
  | interruptTask db i now freshId h hfresh =>
    obtain ⟨r, hfr, hrst⟩ := stateOf_eq_some d i TState.processing h
    have hri : r.id = i := by simpa using List.find?_some hfr
    have hgid : ∀ x : TaskExec, x.id = i →
        ((fun _ => (interruptExec r now freshId).1) x).id = x.id := by
      intro x hx
      show (interruptExec r now freshId).1.id = x.id
      show r.id = x.id
      rw [hri, hx]
    have hred : interruptInDb d i now freshId
        = dbUpdate d i (fun _ => (interruptExec r now freshId).1)
            ++ [(interruptExec r now freshId).2] := by
      simp only [interruptInDb, hfr]
    rw [hred]
    obtain ⟨r0, hf0, hst0, hcase⟩ := stateOf_dbUpdate_cases d i
      (fun _ => (interruptExec r now freshId).1) hgid j s hs
    rcases hcase with ⟨hji, heq⟩ | ⟨-, heq⟩
    · subst hji
      have hsp : s = TState.processing := by
        rw [hs] at h
        injection h
      refine ⟨(interruptExec r now freshId).1.state, ?_, ?_⟩
      · rw [stateOf_append_of_isSome _ _ _ (by rw [heq]; rfl)]
        exact heq
      · rw [hsp]
        show rank TState.processing ≤ rank TState.interrupted
        decide
    · refine ⟨s, ?_, le_refl _⟩
      rw [stateOf_append_of_isSome _ _ _ (by rw [heq]; rfl)]
      exact heq

/-- `stateOf` on a one-row table. -/
theorem stateOf_singleton (x : TaskExec) (j : Nat) :
    stateOf [x] j = if (x.id == j) = true then some x.state else none := by
  rw [stateOf, List.find?_cons]
  cases hc : (x.id == j) with
  | true => simp
  | false => simp

/-- PROCESSING rows only arise from the lock step applied to a QUEUED row:
if a row is PROCESSING after a transaction, it was PROCESSING or QUEUED
before it. -/
theorem step_processing_origin {d d' : TaskDb} (hstep : Step d d') (j : Nat)
    (hp : stateOf d' j = some TState.processing) :
    stateOf d j = some TState.processing
    ∨ stateOf d j = some TState.queued := by
  cases hstep with
  | enqueue t db args kwargs due now freshId hnd hfresh =>
    rcases enqueue_table_cases t d args kwargs due now freshId with
      hcb | hcb | ⟨s0, hs0mem, hs0slp, hcb⟩ | ⟨s0, hs0mem, hs0slp, hcb⟩
    · rw [hcb] at hp
      exact Or.inl hp
    · rw [hcb] at hp
      cases hdb : stateOf d j with
      | some s0 =>
        rw [stateOf_append_of_isSome _ _ _ (by rw [hdb]; rfl), hdb] at hp
        exact Or.inl hp
      | none =>
        rw [stateOf_append_of_none _ _ _ hdb, stateOf_singleton] at hp
        split at hp
        · injection hp with hp2
          rcases due with - | dd
          · exact absurd (show TState.queued = TState.processing from hp2)
              (by decide)
          · exact absurd (show TState.sleeping = TState.processing from hp2)
              (by decide)
        · exact absurd hp (by simp)
    · rw [hcb, stateOf_dbUpdate d s0.id
        (fun r => { r with due := due.getD now, state := TState.queued })
        (fun x _ => rfl) j] at hp
      cases hf : d.find? (fun r => r.id == j) with
      | none =>
        rw [hf] at hp
        exact absurd hp (by simp)
      | some r0 =>
        rw [hf] at hp
        simp only [Option.map_some'] at hp
        injection hp with hif
        split at hif
        · exact absurd (show TState.queued = TState.processing from hif)
            (by decide)
        · left
          rw [stateOf, hf]
          exact congrArg some hif
    · rw [hcb, stateOf_dbUpdate d s0.id
        (fun r => { r with due := min s0.due (due.getD now) })
        (fun x _ => rfl) j] at hp
      cases hf : d.find? (fun r => r.id == j) with
      | none =>
        rw [hf] at hp
        exact absurd hp (by simp)
      | some r0 =>
        rw [hf] at hp
        simp only [Option.map_some'] at hp
        injection hp with hif
        split at hif
        · left
          rw [stateOf, hf]
          exact congrArg some hif
        · left
          rw [stateOf, hf]
          exact congrArg some hif
  | wake now db =>
    rw [show wakeTasks now d = d.map (fun r =>
        if r.state = TState.sleeping ∧ r.due ≤ now
        then { r with state := TState.queued } else r) from rfl,
      stateOf_map _ (wake_id now) d j] at hp
    cases hf : d.find? (fun r => r.id == j) with
    | none =>
      rw [hf] at hp
      exact absurd hp (by simp)
    | some r0 =>
      rw [hf] at hp
      simp only [Option.map_some'] at hp
      injection hp with hif
      split at hif
      · exact absurd (show TState.queued = TState.processing from hif)
          (by decide)
      · left
        rw [stateOf, hf]
        exact congrArg some hif
  | sweep reg db =>
    rw [show sweepTasks reg d = d.map (fun r =>
        if r.state ≠ TState.invalid ∧ r.task_name ∉ reg
        then { r with state := TState.invalid } else r) from rfl,
      stateOf_map _ (sweep_id reg) d j] at hp
    cases hf : d.find? (fun r => r.id == j) with
    | none =>
      rw [hf] at hp
      exact absurd hp (by simp)
    | some r0 =>
      rw [hf] at hp
      simp only [Option.map_some'] at hp
      injection hp with hif
      split at hif
      · exact absurd (show TState.invalid = TState.processing from hif)
          (by decide)
      · left
        rw [stateOf, hf]
        exact congrArg some hif
  | lock db i h =>
    rw [stateOf_dbUpdate d i (fun r => { r with state := TState.processing })
      (fun x _ => rfl) j] at hp
    cases hf : d.find? (fun r => r.id == j) with
    | none =>
      rw [hf] at hp
      exact absurd hp (by simp)
    | some r0 =>
      have hrid : r0.id = j := by simpa using List.find?_some hf
      rw [hf] at hp
      simp only [Option.map_some'] at hp
      injection hp with hif
      split at hif
      · right
        rename_i hcnd
        have hji : j = i := by
          rw [← hrid]
          simpa using hcnd
        rw [hji]
        exact h
      · left
        rw [stateOf, hf]
        exact congrArg some hif
  | finishOk db i v h =>
    rw [succeedInDb, stateOf_dbUpdate d i
      (fun r => { r with state := TState.succeeded, result := some v })
      (fun x _ => rfl) j] at hp
    cases hf : d.find? (fun r => r.id == j) with
    | none =>
      rw [hf] at hp
      exact absurd hp (by simp)
    | some r0 =>
      rw [hf] at hp
      simp only [Option.map_some'] at hp
      injection hp with hif
      split at hif
      · exact absurd (show TState.succeeded = TState.processing from hif)
          (by decide)
      · left
        rw [stateOf, hf]
        exact congrArg some hif
  | finishFail db i now freshId h hfresh =>
    obtain ⟨r, hfr, hrst⟩ := stateOf_eq_some d i TState.processing h
    rcases hex : TaskExec.execute r CallOutcome.raises now freshId
      with ⟨r2, orep⟩
    have hfst := execute_raises_fst r now freshId
    rw [hex] at hfst
    have hid2 : r2.id = r.id := hfst.1
    have hst2 : r2.state = TState.failed := hfst.2
    have hri : r.id = i := by simpa using List.find?_some hfr
    have hgid : ∀ x : TaskExec, x.id = i → ((fun _ => r2) x).id = x.id := by
      intro x hx
      show r2.id = x.id
      rw [hid2, hri, hx]
    rcases orep with - | repl
    · have hred : failInDb d i now freshId = dbUpdate d i (fun _ => r2) := by
        simp only [failInDb, hfr, hex]
      rw [hred, stateOf_dbUpdate d i _ hgid j] at hp
      cases hf : d.find? (fun r => r.id == j) with
      | none =>
        rw [hf] at hp
        exact absurd hp (by simp)
      | some r0 =>
        rw [hf] at hp
        simp only [Option.map_some'] at hp
        injection hp with hif
        split at hif
        · rw [hst2] at hif
          exact absurd hif (by decide)
        · left
          rw [stateOf, hf]
          exact congrArg some hif
    · have hred : failInDb d i now freshId
          = dbUpdate d i (fun _ => r2) ++ [repl] := by
        simp only [failInDb, hfr, hex]
      have hrepl := execute_raises_snd r now freshId repl (by rw [hex])
      rw [hred] at hp
      cases hf : d.find? (fun r => r.id == j) with
      | none =>
        have hnone : stateOf (dbUpdate d i (fun _ => r2)) j = none := by
          rw [stateOf_dbUpdate d i _ hgid j, hf]
          rfl
        rw [stateOf_append_of_none _ _ _ hnone, stateOf_singleton] at hp
        split at hp
        · injection hp with hp2
          rw [hrepl.2] at hp2
          exact absurd hp2 (by decide)
        · exact absurd hp (by simp)
      | some r0 =>
        have hsome : stateOf (dbUpdate d i (fun _ => r2)) j
            = some (if (r0.id == i) = true then r2.state else r0.state) := by
          rw [stateOf_dbUpdate d i _ hgid j, hf]
          rfl
        rw [stateOf_append_of_isSome _ _ _ (by rw [hsome]; rfl), hsome] at hp
        injection hp with hif
        split at hif
        · rw [hst2] at hif
          exact absurd hif (by decide)
        · left
          rw [stateOf, hf]
          exact congrArg some hif
  | interruptTask db i now freshId h hfresh =>
    obtain ⟨r, hfr, hrst⟩ := stateOf_eq_some d i TState.processing h
    have hri : r.id = i := by simpa using List.find?_some hfr
    have hgid : ∀ x : TaskExec, x.id = i →
        ((fun _ => (interruptExec r now freshId).1) x).id = x.id := by
      intro x hx
      show (interruptExec r now freshId).1.id = x.id
      show r.id = x.id
      rw [hri, hx]
    have hred : interruptInDb d i now freshId
        = dbUpdate d i (fun _ => (interruptExec r now freshId).1)
            ++ [(interruptExec r now freshId).2] := by
      simp only [interruptInDb, hfr]
    rw [hred] at hp
    cases hf : d.find? (fun r => r.id == j) with
    | none =>
      have hnone : stateOf (dbUpdate d i
          (fun _ => (interruptExec r now freshId).1)) j = none := by
        rw [stateOf_dbUpdate d i _ hgid j, hf]
        rfl
      rw [stateOf_append_of_none _ _ _ hnone, stateOf_singleton] at hp
      split at hp
      · injection hp with hp2
        exact absurd (show TState.sleeping = TState.processing from hp2)
          (by decide)
      · exact absurd hp (by simp)
    | some r0 =>
      have hsome : stateOf (dbUpdate d i
          (fun _ => (interruptExec r now freshId).1)) j
          = some (if (r0.id == i) = true
              then (interruptExec r now freshId).1.state else r0.state) := by
        rw [stateOf_dbUpdate d i _ hgid j, hf]
        rfl
      rw [stateOf_append_of_isSome _ _ _ (by rw [hsome]; rfl), hsome] at hp
      injection hp with hif
      split at hif
      · exact absurd (show TState.interrupted = TState.processing from hif)
          (by decide)
      · left
        rw [stateOf, hf]
        exact congrArg some hif

/-- Once a row's rank has reached 2 (PROCESSING or beyond), no further
QUEUED→PROCESSING transition of that row occurs in the rest of the trace. -/
theorem qpCount_zero_of_rank_ge (j : Nat) :
    ∀ (rest : List TaskDb) (d : TaskDb) (s : TState), 2 ≤ rank s →
      List.Chain' Step (d :: rest) → stateOf d j = some s →
      qpCount j (d :: rest) = 0 := by
  intro rest
  induction rest with
  | nil =>
    intro d s _ _ _
    rfl
  | cons d2 rest2 ih =>
    intro d s hrk hch hs
    have hstep : Step d d2 := (List.chain'_cons.mp hch).1
    have hch2 := (List.chain'_cons.mp hch).2
    obtain ⟨s2, hs2, hle⟩ := step_rank_mono hstep j s hs
    rw [qpCount, ih d2 s2 (le_trans hrk hle) hch2 hs2]
    rw [if_neg ?_]
    · rintro ⟨hq, -⟩
      rw [hs] at hq
      injection hq with hq2
      rw [hq2] at hrk
      exact absurd hrk (by decide)

/-- Along any trace of atomic transactions, a row goes QUEUED→PROCESSING at
most once. -/
theorem qpCount_le_one (j : Nat) :
    ∀ (rest : List TaskDb) (d : TaskDb), List.Chain' Step (d :: rest) →
      qpCount j (d :: rest) ≤ 1 := by
  intro rest
  induction rest with
  | nil =>
    intro d _
    exact Nat.zero_le 1
  | cons d2 rest2 ih =>
    intro d hch
    have hstep : Step d d2 := (List.chain'_cons.mp hch).1
    have hch2 := (List.chain'_cons.mp hch).2
    rw [qpCount]
    by_cases hqp : stateOf d j = some TState.queued
        ∧ stateOf d2 j = some TState.processing
    · rw [if_pos hqp]
      have h0 := qpCount_zero_of_rank_ge j rest2 d2 TState.processing
        (by decide) hch2 hqp.2
      omega
    · rw [if_neg hqp]
      have h1 := ih d2 hch2
      omega

/-- If a row that is not PROCESSING at the start of a trace is PROCESSING
in some snapshot, the trace contains a QUEUED→PROCESSING transition of it. -/
theorem qpCount_pos_of_reach (j : Nat) :
    ∀ (rest : List TaskDb) (d : TaskDb), List.Chain' Step (d :: rest) →
      stateOf d j ≠ some TState.processing →
      (∃ e ∈ (d :: rest), stateOf e j = some TState.processing) →
      1 ≤ qpCount j (d :: rest) := by
  intro rest
  induction rest with
  | nil =>
    intro d _ hnp hex
    obtain ⟨e, he, hpe⟩ := hex
    rcases List.mem_singleton.mp he with rfl
    exact absurd hpe hnp
  | cons d2 rest2 ih =>
    intro d hch hnp hex
    obtain ⟨e, he, hpe⟩ := hex
    have hstep : Step d d2 := (List.chain'_cons.mp hch).1
    have hch2 := (List.chain'_cons.mp hch).2
    rw [qpCount]
    by_cases hd2 : stateOf d2 j = some TState.processing
    · rcases step_processing_origin hstep j hd2 with hdp | hdq
      · exact absurd hdp hnp
      · rw [if_pos ⟨hdq, hd2⟩]
        omega
    · have hex2 : ∃ e ∈ (d2 :: rest2),
          stateOf e j = some TState.processing := by
        rcases List.mem_cons.mp he with rfl | he2
        · exact absurd hpe hnp
        · exact ⟨e, he2, hpe⟩
      have h1 := ih d2 hch2 hd2 hex2
      omega

/-- C1: across any number of concurrently running workers — whose shared
effects are exactly the interleavings of atomic `Step` transactions, the
row lock of step 7 making lock-and-mark atomic — every TaskExecution row
transitions from QUEUED to PROCESSING at most once along any trace, and
exactly once if it starts QUEUED and is ever observed PROCESSING. In
particular two workers never both move the same row into PROCESSING. -/
theorem claim1_at_most_one_execution (d : TaskDb) (rest : List TaskDb)
    (j : Nat) (hch : List.Chain' Step (d :: rest)) :
    qpCount j (d :: rest) ≤ 1
    ∧ (stateOf d j = some TState.queued →
        (∃ e ∈ (d :: rest), stateOf e j = some TState.processing) →
        qpCount j (d :: rest) = 1) := by
  refine ⟨qpCount_le_one j rest d hch, ?_⟩
  intro hq hex
  have h1 := qpCount_pos_of_reach j rest d hch (by rw [hq]; simp) hex
  have h2 := qpCount_le_one j rest d hch
  omega

/-- A QUEUED row ready to be locked. -/
def queuedRow : TaskExec :=
  { id := 0, task_name := "t", args := [], kwargs := [], retries := 0
    retry_delay := 0, due := 0, created := 0, state := TState.queued }

/-- The table after a worker's lock transaction took `queuedRow`. -/
def lockedDb : TaskDb :=
  dbUpdate [queuedRow] 0 (fun r => { r with state := TState.processing })

/-- Witness for C1 on a two-snapshot trace: one lock transaction yields
exactly one QUEUED→PROCESSING transition. -/
theorem claim1_witness : qpCount 0 [[queuedRow], lockedDb] = 1 := by
  have hch : List.Chain' Step [[queuedRow], lockedDb] := by
    rw [List.chain'_cons]
    exact ⟨Step.lock [queuedRow] 0 (by decide), List.chain'_singleton _⟩
  exact (claim1_at_most_one_execution [queuedRow] [lockedDb] 0 hch).2
    (by decide) ⟨lockedDb, by simp, by decide⟩

end ToosimpleQ
